import Mathlib

/-!
A verification development for the backupmgr repository.

The Python sources are embedded shallowly:

* timezone-aware `datetime.datetime` values (all sharing the local timezone)
  become the civil `DateTime` structure below; comparisons between aware
  datetimes compare instants, which for a shared timezone is the
  lexicographic field order, embedded here through `DateTime.toMicros`.
  Python caps years at 9999 (raising `OverflowError` beyond); the model
  leaves years unbounded above, idealizing away that resource limit.
* `dateutil.relativedelta` arithmetic (used by `backup.next_due_run` and
  `time_utilities.week`) is expanded into explicit civil-calendar steps,
  following the library order of operations: absolute replacements first,
  then relative day shifts, then the weekday jump.
* Python `int(...)` / `float(...)` string conversions become the exact
  parsers `pyIntParse` / `pyFloatParse`, with float values carried as exact
  rationals plus infinity/nan markers (surrounding whitespace and digit
  group separators are not modelled; they play no role in the claims).
-/

namespace Backupmgr

/-- Civil datetime: the shallow embedding of a timezone-aware
`datetime.datetime` (every value in the program carries the same, local,
timezone, so the timezone itself is not represented). -/
structure DateTime where
  year : Nat
  month : Nat
  day : Nat
  hour : Nat
  minute : Nat
  second : Nat
  micro : Nat
deriving DecidableEq

/-- Gregorian leap-year test. -/
def isLeapYear (y : Nat) : Bool :=
  (y % 4 == 0 && y % 100 != 0) || y % 400 == 0

/-- Number of days in a month of a given year. -/
def daysInMonth (y m : Nat) : Nat :=
  if m = 2 then (if isLeapYear y then 29 else 28)
  else if m = 4 ∨ m = 6 ∨ m = 9 ∨ m = 11 then 30
  else 31

/-- The datetime is a real calendar instant: the ranges `datetime.datetime`
enforces, except that years are unbounded above (Python stops at 9999). -/
abbrev DateTime.Valid (d : DateTime) : Prop :=
  1 ≤ d.year ∧ 1 ≤ d.month ∧ d.month ≤ 12 ∧ 1 ≤ d.day ∧
    d.day ≤ daysInMonth d.year d.month ∧
    d.hour < 24 ∧ d.minute < 60 ∧ d.second < 60 ∧ d.micro < 1000000

/-- Day count of the civil date (Hinnant day-numbering shifted to stay in
`Nat`; only the successor property and injectivity matter below). -/
def DateTime.toDays (d : DateTime) : Nat :=
  let y := if d.month ≤ 2 then d.year - 1 else d.year
  let mp := if d.month ≤ 2 then d.month + 9 else d.month - 3
  let era := y / 400
  let yoe := y % 400
  let doy := (153 * mp + 2) / 5 + (d.day - 1)
  let doe := yoe * 365 + yoe / 4 - yoe / 100 + doy
  era * 146097 + doe

/-- Microseconds elapsed since the midnight of the same day. -/
def DateTime.timeOfDayMicros (d : DateTime) : Nat :=
  ((d.hour * 60 + d.minute) * 60 + d.second) * 1000000 + d.micro

/-- Linear instant of the datetime in microseconds.  Comparing two
same-timezone aware datetimes in Python compares these values. -/
def DateTime.toMicros (d : DateTime) : Nat :=
  d.toDays * 86400000000 + d.timeOfDayMicros

/-- Weekday of the date, Monday = 0 .. Sunday = 6 (the `datetime.weekday`
convention used by `dateutil.relativedelta`). -/
def DateTime.weekday (d : DateTime) : Nat :=
  (d.toDays + 2) % 7

/-- Civil successor date (time fields untouched). -/
def DateTime.nextDay (d : DateTime) : DateTime :=
  if d.day < daysInMonth d.year d.month then { d with day := d.day + 1 }
  else if d.month < 12 then { d with month := d.month + 1, day := 1 }
  else { d with year := d.year + 1, month := 1, day := 1 }

/-- Civil predecessor date (time fields untouched). -/
def DateTime.prevDay (d : DateTime) : DateTime :=
  if 1 < d.day then { d with day := d.day - 1 }
  else if 1 < d.month then
    { d with month := d.month - 1, day := daysInMonth d.year (d.month - 1) }
  else { d with year := d.year - 1, month := 12, day := 31 }

/-- Iterated `nextDay`. -/
def DateTime.addDays (d : DateTime) : Nat → DateTime
  | 0 => d
  | n + 1 => (d.addDays n).nextDay

/-- Iterated `prevDay`. -/
def DateTime.subDays (d : DateTime) : Nat → DateTime
  | 0 => d
  | n + 1 => (d.subDays n).prevDay

/-- `dt.replace(hour=0, minute=0, second=0, microsecond=0)`. -/
def DateTime.atMidnight (d : DateTime) : DateTime :=
  { d with hour := 0, minute := 0, second := 0, micro := 0 }

theorem DateTime.timeOfDayMicros_lt (d : DateTime) (h : d.Valid) :
    d.timeOfDayMicros < 86400000000 := by
  obtain ⟨-, -, -, -, -, hh, hm, hs, hu⟩ := h
  unfold timeOfDayMicros
  omega

/-- Day-count difference of consecutive March-years (the only part of the
day-count formula where leap years matter). -/
theorem isLeapYear_iff (y : Nat) :
    isLeapYear y = true ↔ ((y % 4 = 0 ∧ y % 100 ≠ 0) ∨ y % 400 = 0) := by
  unfold isLeapYear
  simp [Bool.or_eq_true, Bool.and_eq_true, beq_iff_eq, bne_iff_ne]

theorem yearFormulaStep (y : Nat) (h : 1 ≤ y) :
    (y / 400) * 146097 + (y % 400) * 365 + (y % 400) / 4 - (y % 400) / 100
      = ((y - 1) / 400) * 146097 + ((y - 1) % 400) * 365 + ((y - 1) % 400) / 4
          - ((y - 1) % 400) / 100
        + 365 + (if isLeapYear y then 1 else 0) := by
  rcases Nat.exists_eq_add_of_le h with ⟨z, rfl⟩
  have hiff := isLeapYear_iff (1 + z)
  simp only [Nat.add_sub_cancel_left]
  split
  · rename_i hl
    have hfacts := hiff.mp hl
    omega
  · rename_i hl
    have hfacts : ¬ (((1 + z) % 4 = 0 ∧ (1 + z) % 100 ≠ 0) ∨ (1 + z) % 400 = 0) :=
      fun hc => hl (hiff.mpr hc)
    omega

set_option maxHeartbeats 1600000 in
/-- The day count steps by one along the civil successor. -/
theorem DateTime.toDays_nextDay (d : DateTime) (h : d.Valid) :
    d.nextDay.toDays = d.toDays + 1 := by
  obtain ⟨hy, hm1, hm12, hd1, hdm, -⟩ := h
  unfold nextDay
  by_cases hlt : d.day < daysInMonth d.year d.month
  · simp only [if_pos hlt]
    unfold toDays
    rcases Nat.decLe d.month 2 with hm2 | hm2 <;> simp only [hm2] <;> omega
  · simp only [if_neg hlt]
    have hde : d.day = daysInMonth d.year d.month := by omega
    by_cases hm : d.month < 12
    · simp only [if_pos hm]
      unfold toDays
      interval_cases hmv : d.month <;>
        · have hstep := yearFormulaStep d.year hy
          have hiff := isLeapYear_iff d.year
          by_cases hl : isLeapYear d.year = true
          · have hfacts := hiff.mp hl
            norm_num [daysInMonth, hl] at hde ⊢
            omega
          · have hfacts : ¬ ((d.year % 4 = 0 ∧ d.year % 100 ≠ 0) ∨
                d.year % 400 = 0) := fun hc => hl (hiff.mpr hc)
            norm_num [daysInMonth, hl] at hde ⊢
            omega
    · simp only [if_neg hm]
      have hm12e : d.month = 12 := by omega
      unfold toDays
      rw [hm12e] at hde ⊢
      norm_num [daysInMonth] at hde ⊢
      omega

theorem one_le_daysInMonth (y m : Nat) : 1 ≤ daysInMonth y m := by
  unfold daysInMonth
  split
  · split <;> omega
  · split <;> omega

theorem DateTime.nextDay_valid (d : DateTime) (h : d.Valid) :
    d.nextDay.Valid := by
  obtain ⟨hy, hm1, hm12, hd1, hdm, hh, hm, hs, hu⟩ := h
  unfold nextDay
  by_cases hlt : d.day < daysInMonth d.year d.month
  · rw [if_pos hlt]
    exact ⟨hy, hm1, hm12, show 1 ≤ d.day + 1 by omega,
      show d.day + 1 ≤ daysInMonth d.year d.month by omega, hh, hm, hs, hu⟩
  · by_cases hmo : d.month < 12
    · rw [if_neg hlt, if_pos hmo]
      exact ⟨hy, show 1 ≤ d.month + 1 by omega, show d.month + 1 ≤ 12 by omega,
        le_refl 1, one_le_daysInMonth d.year (d.month + 1), hh, hm, hs, hu⟩
    · rw [if_neg hlt, if_neg hmo]
      exact ⟨show 1 ≤ d.year + 1 by omega, le_refl 1,
        show (1 : Nat) ≤ 12 by norm_num, le_refl 1,
        one_le_daysInMonth (d.year + 1) 1, hh, hm, hs, hu⟩

theorem DateTime.addDays_valid (d : DateTime) (h : d.Valid) (n : Nat) :
    (d.addDays n).Valid := by
  induction n with
  | zero => exact h
  | succ k ih => exact (d.addDays k).nextDay_valid ih

theorem DateTime.toDays_addDays (d : DateTime) (h : d.Valid) (n : Nat) :
    (d.addDays n).toDays = d.toDays + n := by
  induction n with
  | zero => simp [addDays]
  | succ k ih =>
    have := (d.addDays k).toDays_nextDay (d.addDays_valid h k)
    simp only [addDays, this, ih]
    omega

theorem DateTime.timeOfDayMicros_nextDay (d : DateTime) :
    d.nextDay.timeOfDayMicros = d.timeOfDayMicros := by
  unfold nextDay
  split
  · simp only [timeOfDayMicros]
  · split <;> simp only [timeOfDayMicros]

theorem DateTime.timeOfDayMicros_addDays (d : DateTime) (n : Nat) :
    (d.addDays n).timeOfDayMicros = d.timeOfDayMicros := by
  induction n with
  | zero => simp [addDays]
  | succ k ih => simp only [addDays, timeOfDayMicros_nextDay, ih]

theorem DateTime.atMidnight_valid (d : DateTime) (h : d.Valid) :
    d.atMidnight.Valid := by
  obtain ⟨hy, hm1, hm12, hd1, hdm, -⟩ := h
  exact ⟨hy, hm1, hm12, hd1, hdm, show (0 : Nat) < 24 by norm_num,
    show (0 : Nat) < 60 by norm_num, show (0 : Nat) < 60 by norm_num,
    show (0 : Nat) < 1000000 by norm_num⟩

theorem DateTime.toDays_atMidnight (d : DateTime) :
    d.atMidnight.toDays = d.toDays := by
  simp only [toDays, atMidnight]

theorem DateTime.timeOfDayMicros_atMidnight (d : DateTime) :
    d.atMidnight.timeOfDayMicros = 0 := by
  simp [timeOfDayMicros, atMidnight]

/-! ## Scheduler: `backup.next_due_run` and `Backup.should_run` -/

/-- The timespec tokens of `backup.py`: `MONDAY` .. `SUNDAY`, `MONTHLY`,
`WEEKLY`. -/
inductive TimespecPart where
  | monday
  | tuesday
  | wednesday
  | thursday
  | friday
  | saturday
  | sunday
  | monthly
  | weekly
deriving DecidableEq

/-- `WEEKDAY_NUMBERS` for the weekday tokens; `WEEKLY` is replaced by
`MONDAY` inside `next_due_run_part` (the `monthly` value is unused). -/
def TimespecPart.targetWeekday : TimespecPart → Nat
  | .monday => 0
  | .tuesday => 1
  | .wednesday => 2
  | .thursday => 3
  | .friday => 4
  | .saturday => 5
  | .sunday => 6
  | .weekly => 0
  | .monthly => 0

/-- `since + relativedelta(months=1, day=1, hour=0, minute=0, second=0,
microsecond=0)`: midnight on the first of the month after `since`. -/
def firstOfNextMonth (d : DateTime) : DateTime :=
  if d.month < 12 then
    { d with
        month := d.month + 1
        day := 1
        hour := 0
        minute := 0
        second := 0
        micro := 0 }
  else
    { d with
        year := d.year + 1
        month := 1
        day := 1
        hour := 0
        minute := 0
        second := 0
        micro := 0 }

/-- `since + relativedelta(weekday=W(+1), days=+1, hour=0, minute=0,
second=0, microsecond=0)` in the dateutil order of operations: zero the time
fields, advance one day, then jump forward `(W - weekday) % 7` days. -/
def nextWeekdayCandidate (w : Nat) (since : DateTime) : DateTime :=
  let base := since.atMidnight.nextDay
  base.addDays ((w + 7 - base.weekday) % 7)

/-- One candidate of `next_due_run` (the inner `next_due_run_part`). -/
def next_due_run_part (part : TimespecPart) (since : DateTime) : DateTime :=
  match part with
  | .monthly => firstOfNextMonth since
  | p => nextWeekdayCandidate p.targetWeekday since

/-- Python `min` step on two aware datetimes (keeps the first on ties). -/
def pyMinDateTime (a b : DateTime) : DateTime :=
  if b.toMicros < a.toMicros then b else a

/-- `backup.next_due_run`: the earliest per-token candidate.  (Python `min`
raises on an empty timespec; the model returns `since` there, and every
theorem below assumes a nonempty timespec.) -/
def next_due_run (timespec : List TimespecPart) (since : DateTime) :
    DateTime :=
  match timespec with
  | [] => since
  | p :: rest =>
    rest.foldl (fun best q => pyMinDateTime best (next_due_run_part q since))
      (next_due_run_part p since)

/-- `Backup.should_run(last_run, now)`: whether
`next_due_run(timespec, last_run) < now`. -/
def should_run (timespec : List TimespecPart) (last_run now : DateTime) :
    Bool :=
  decide ((next_due_run timespec last_run).toMicros < now.toMicros)

theorem nextWeekdayCandidate_valid (w : Nat) (since : DateTime)
    (h : since.Valid) : (nextWeekdayCandidate w since).Valid :=
  DateTime.addDays_valid _ ((since.atMidnight).nextDay_valid
    (since.atMidnight_valid h)) _

theorem nextWeekdayCandidate_timeOfDayMicros (w : Nat) (since : DateTime) :
    (nextWeekdayCandidate w since).timeOfDayMicros = 0 := by
  unfold nextWeekdayCandidate
  rw [DateTime.timeOfDayMicros_addDays, DateTime.timeOfDayMicros_nextDay,
    DateTime.timeOfDayMicros_atMidnight]

theorem nextWeekdayCandidate_toDays (w : Nat) (since : DateTime)
    (h : since.Valid) :
    (nextWeekdayCandidate w since).toDays
      = since.toDays + 1 + ((w + 7 - (since.toDays + 3) % 7) % 7) := by
  unfold nextWeekdayCandidate
  have hbv : (since.atMidnight).nextDay.Valid :=
    (since.atMidnight).nextDay_valid (since.atMidnight_valid h)
  have hbd : (since.atMidnight).nextDay.toDays = since.toDays + 1 := by
    rw [(since.atMidnight).toDays_nextDay (since.atMidnight_valid h),
      DateTime.toDays_atMidnight]
  rw [DateTime.toDays_addDays _ hbv, hbd, DateTime.weekday, hbd]

/-- The weekday candidate is the least weekday-`w` midnight strictly after
`since`. -/
theorem nextWeekdayCandidate_spec (w : Nat) (hw : w < 7) (since : DateTime)
    (h : since.Valid) :
    (nextWeekdayCandidate w since).Valid ∧
      (nextWeekdayCandidate w since).timeOfDayMicros = 0 ∧
      (nextWeekdayCandidate w since).weekday = w ∧
      since.toMicros < (nextWeekdayCandidate w since).toMicros ∧
      ∀ e : DateTime, e.Valid → e.timeOfDayMicros = 0 → e.weekday = w →
        since.toMicros < e.toMicros →
        (nextWeekdayCandidate w since).toMicros ≤ e.toMicros := by
  have hvalid := nextWeekdayCandidate_valid w since h
  have htod := nextWeekdayCandidate_timeOfDayMicros w since
  have hdays := nextWeekdayCandidate_toDays w since h
  have htlt := since.timeOfDayMicros_lt h
  refine ⟨hvalid, htod, ?_, ?_, ?_⟩
  · rw [DateTime.weekday, hdays]
    omega
  · rw [DateTime.toMicros, DateTime.toMicros, htod, hdays]
    omega
  · intro e hev hetod hew hegt
    rw [DateTime.weekday] at hew
    simp only [DateTime.toMicros] at hegt ⊢
    rw [htod, hdays]
    omega

theorem firstOfNextMonth_timeOfDayMicros (d : DateTime) :
    (firstOfNextMonth d).timeOfDayMicros = 0 := by
  unfold firstOfNextMonth
  split
  · show DateTime.timeOfDayMicros
      (DateTime.mk d.year (d.month + 1) 1 0 0 0 0) = 0
    simp [DateTime.timeOfDayMicros]
  · show DateTime.timeOfDayMicros
      (DateTime.mk (d.year + 1) 1 1 0 0 0 0) = 0
    simp [DateTime.timeOfDayMicros]

theorem firstOfNextMonth_toDays_gt (d : DateTime) (h : d.Valid) :
    d.toDays < (firstOfNextMonth d).toDays := by
  obtain ⟨hy, hm1, hm12, hd1, hdm, -⟩ := h
  unfold firstOfNextMonth
  by_cases hm : d.month < 12
  · rw [if_pos hm]
    unfold DateTime.toDays
    interval_cases hmv : d.month <;>
      · have hstep := yearFormulaStep d.year hy
        have hiff := isLeapYear_iff d.year
        by_cases hl : isLeapYear d.year = true
        · have hfacts := hiff.mp hl
          norm_num [daysInMonth, hl] at hdm ⊢
          omega
        · have hfacts : ¬ ((d.year % 4 = 0 ∧ d.year % 100 ≠ 0) ∨
              d.year % 400 = 0) := fun hc => hl (hiff.mpr hc)
          norm_num [daysInMonth, hl] at hdm ⊢
          omega
  · rw [if_neg hm]
    have hm12e : d.month = 12 := by omega
    unfold DateTime.toDays
    rw [hm12e] at hdm ⊢
    norm_num [daysInMonth] at hdm ⊢
    omega

/-- Every per-token candidate lies strictly after `since`, for every
recognized token. -/
theorem next_due_run_part_gt (p : TimespecPart) (since : DateTime)
    (h : since.Valid) :
    since.toMicros < (next_due_run_part p since).toMicros := by
  cases p
  case monthly =>
    show since.toMicros < (firstOfNextMonth since).toMicros
    have hgt := firstOfNextMonth_toDays_gt since h
    have htod := firstOfNextMonth_timeOfDayMicros since
    have htlt := since.timeOfDayMicros_lt h
    rw [DateTime.toMicros, DateTime.toMicros, htod]
    omega
  all_goals
    exact (nextWeekdayCandidate_spec _ (by norm_num [TimespecPart.targetWeekday])
      since h).2.2.2.1

/-- `next_due_run` returns one of the per-token candidates. -/
theorem next_due_run_is_candidate (timespec : List TimespecPart)
    (since : DateTime) (hne : timespec ≠ []) :
    ∃ p ∈ timespec, next_due_run timespec since = next_due_run_part p since := by
  match timespec with
  | [] => exact absurd rfl hne
  | p :: rest =>
    clear hne
    show ∃ q ∈ p :: rest,
      rest.foldl (fun best q => pyMinDateTime best (next_due_run_part q since))
        (next_due_run_part p since) = next_due_run_part q since
    induction rest generalizing p with
    | nil => exact ⟨p, List.mem_cons_self p [], rfl⟩
    | cons r rest ih =>
      simp only [List.foldl_cons]
      rcases Nat.decLt (next_due_run_part r since).toMicros
          (next_due_run_part p since).toMicros with hlt | hlt
      · rw [show pyMinDateTime (next_due_run_part p since)
            (next_due_run_part r since) = next_due_run_part p since from
            if_neg hlt]
        rcases ih p with ⟨q, hq, heq⟩
        rcases List.mem_cons.mp hq with hq | hq
        · exact ⟨q, by simp [hq], heq⟩
        · exact ⟨q, by simp [List.mem_cons, hq], heq⟩
      · rw [show pyMinDateTime (next_due_run_part p since)
            (next_due_run_part r since) = next_due_run_part r since from
            if_pos hlt]
        rcases ih r with ⟨q, hq, heq⟩
        rcases List.mem_cons.mp hq with hq | hq
        · exact ⟨q, by simp [List.mem_cons, hq], heq⟩
        · exact ⟨q, by simp [List.mem_cons, hq], heq⟩

theorem next_due_run_gt (timespec : List TimespecPart) (since : DateTime)
    (h : since.Valid) (hne : timespec ≠ []) :
    since.toMicros < (next_due_run timespec since).toMicros := by
  rcases next_due_run_is_candidate timespec since hne with ⟨p, -, heq⟩
  rw [heq]
  exact next_due_run_part_gt p since h

/-- The property the claim asks of each weekday candidate: `c` is the next
occurrence of weekday `w` at midnight strictly after `since`. -/
def IsNextWeekdayMidnightAfter (w : Nat) (since c : DateTime) : Prop :=
  c.Valid ∧ c.timeOfDayMicros = 0 ∧ c.weekday = w ∧
    since.toMicros < c.toMicros ∧
    ∀ e : DateTime, e.Valid → e.timeOfDayMicros = 0 → e.weekday = w →
      since.toMicros < e.toMicros → c.toMicros ≤ e.toMicros

/-- C7: for every timespec containing only weekday tokens (Weekly counting
as Monday) and every datetime `since`, `next_due_run(timespec, since)` is
strictly greater than `since`, and each per-token candidate is the next
occurrence of that weekday at midnight strictly after `since` — even when
`since` falls exactly at midnight on a selected weekday. -/
theorem claim_C7 (timespec : List TimespecPart) (since : DateTime)
    (hv : since.Valid) (hne : timespec ≠ [])
    (hwk : ∀ p ∈ timespec, p ≠ TimespecPart.monthly) :
    since.toMicros < (next_due_run timespec since).toMicros ∧
      ∀ p ∈ timespec, IsNextWeekdayMidnightAfter p.targetWeekday since
        (next_due_run_part p since) := by
  refine ⟨next_due_run_gt timespec since hv hne, ?_⟩
  intro p hp
  have hred : next_due_run_part p since
      = nextWeekdayCandidate p.targetWeekday since := by
    cases p <;> first | rfl | exact absurd rfl (hwk _ hp)
  rw [hred]
  have hw : p.targetWeekday < 7 := by
    cases p <;> norm_num [TimespecPart.targetWeekday]
  exact nextWeekdayCandidate_spec _ hw since hv

theorem claim_C7_witness :
    (DateTime.mk 2014 11 17 5 0 0 0).Valid ∧
      (([TimespecPart.monday, TimespecPart.friday] :
        List TimespecPart) ≠ []) ∧
      (∀ p ∈ [TimespecPart.monday, TimespecPart.friday],
        p ≠ TimespecPart.monthly) ∧
      ((DateTime.mk 2014 11 17 5 0 0 0).toMicros
          < (next_due_run [TimespecPart.monday, TimespecPart.friday]
              (DateTime.mk 2014 11 17 5 0 0 0)).toMicros ∧
        ∀ p ∈ [TimespecPart.monday, TimespecPart.friday],
          IsNextWeekdayMidnightAfter p.targetWeekday
            (DateTime.mk 2014 11 17 5 0 0 0)
            (next_due_run_part p (DateTime.mk 2014 11 17 5 0 0 0))) :=
  ⟨by decide, by decide, by decide,
    claim_C7 _ _ (by decide) (by decide) (by decide)⟩

/-- C9: for every non-empty timespec of recognized tokens and every
datetime `now`, `should_run(now, now)` is false: no token candidate
computed from `now` is ever strictly before `now`. -/
theorem claim_C9 (timespec : List TimespecPart) (now : DateTime)
    (hv : now.Valid) (hne : timespec ≠ []) :
    should_run timespec now now = false := by
  have hgt := next_due_run_gt timespec now hv hne
  unfold should_run
  exact decide_eq_false (by omega)

theorem claim_C9_witness :
    (DateTime.mk 2014 11 17 5 0 0 0).Valid ∧
      (([TimespecPart.monthly, TimespecPart.weekly, TimespecPart.wednesday] :
        List TimespecPart) ≠ []) ∧
      should_run [TimespecPart.monthly, TimespecPart.weekly,
          TimespecPart.wednesday] (DateTime.mk 2014 11 17 5 0 0 0)
          (DateTime.mk 2014 11 17 5 0 0 0) = false :=
  ⟨by decide, by decide, claim_C9 _ _ (by decide) (by decide)⟩

/-! ## Pruning: `time_utilities.py` and `pruning_engine.py` -/

namespace TimeUtilities

/-- `time_utilities.day`: `dt.replace(hour=0, minute=0, second=0,
microsecond=0)`. -/
def day (dt : DateTime) : DateTime := dt.atMidnight

/-- `time_utilities.week`: `dt - relativedelta(weekday=MO(-1))` — step back
to the previous-or-same Monday — then zero the time fields. -/
def week (dt : DateTime) : DateTime := (dt.subDays dt.weekday).atMidnight

/-- `time_utilities.month`: `dt.replace(day=1, hour=0, minute=0, second=0,
microsecond=0)`. -/
def month (dt : DateTime) : DateTime :=
  { dt with day := 1, hour := 0, minute := 0, second := 0, micro := 0 }

end TimeUtilities

/-- An archive as the pruning engine sees it: its aware datetime plus an
identity tag; Python set membership treats distinct archive objects with
equal datetimes as different elements, which the tag mirrors. -/
structure PruneArchive where
  ident : Nat
  datetime : DateTime
deriving DecidableEq

/-- The per-backup quota triple consumed by `PruningEngine`; `⊤` plays the
role of the unbounded default for a tier with no configured bound. -/
structure PruningConfig where
  daily_count : WithTop Nat
  weekly_count : WithTop Nat
  monthly_count : WithTop Nat

/-- Accumulator of the single pruning pass: the `fresh` list and the three
insertion-ordered bucket dictionaries of `prunable_archives`. -/
structure PruneState where
  fresh : List PruneArchive
  daily_saved : List (DateTime × PruneArchive)
  weekly_saved : List (DateTime × PruneArchive)
  monthly_saved : List (DateTime × PruneArchive)

/-- `sorted(archives, cmp=lambda x, y: cmp(y.datetime, x.datetime))`:
stable sort, most recent first. -/
def mostRecentFirst (archives : List PruneArchive) : List PruneArchive :=
  archives.mergeSort fun x y =>
    decide (y.datetime.toMicros ≤ x.datetime.toMicros)

/-- The loop body of `prunable_archives`: retain archives performed in the
last 24 hours (`(now - dt).days < 1`, Python floor division), otherwise try
the daily, weekly and monthly gates in order. -/
def pruneStep (cfg : PruningConfig) (now : DateTime) (st : PruneState)
    (archive : PruneArchive) : PruneState :=
  if Int.fdiv ((now.toMicros : Int) - (archive.datetime.toMicros : Int))
      86400000000 < 1 then
    { st with fresh := st.fresh ++ [archive] }
  else if (st.daily_saved.length : WithTop Nat) < cfg.daily_count ∧
      TimeUtilities.day archive.datetime ∉ st.daily_saved.map Prod.fst then
    { st with daily_saved :=
        st.daily_saved ++ [(TimeUtilities.day archive.datetime, archive)] }
  else if (st.weekly_saved.length : WithTop Nat) < cfg.weekly_count ∧
      TimeUtilities.week archive.datetime ∉ st.weekly_saved.map Prod.fst then
    { st with weekly_saved :=
        st.weekly_saved ++ [(TimeUtilities.week archive.datetime, archive)] }
  else if (st.monthly_saved.length : WithTop Nat) < cfg.monthly_count ∧
      TimeUtilities.month archive.datetime ∉ st.monthly_saved.map Prod.fst
      then
    { st with monthly_saved :=
        st.monthly_saved ++ [(TimeUtilities.month archive.datetime, archive)] }
  else st

/-- The state after the single pass of `prunable_archives` over the
sorted archives. -/
def pruneFoldState (cfg : PruningConfig) (now : DateTime)
    (archives : List PruneArchive) : PruneState :=
  (mostRecentFirst archives).foldl (pruneStep cfg now) ⟨[], [], [], []⟩

/-- The `saved_archives` collection of `prunable_archives`: fresh archives
and the values of the three bucket dictionaries. -/
def savedArchives (cfg : PruningConfig) (now : DateTime)
    (archives : List PruneArchive) : List PruneArchive :=
  (pruneFoldState cfg now archives).fresh
    ++ (pruneFoldState cfg now archives).daily_saved.map Prod.snd
    ++ (pruneFoldState cfg now archives).weekly_saved.map Prod.snd
    ++ (pruneFoldState cfg now archives).monthly_saved.map Prod.snd

/-- `PruningEngine.prunable_archives` (`now` stands for the
`time_utilities.local_timestamp()` evaluation time). -/
def prunable_archives (cfg : PruningConfig) (now : DateTime)
    (archives : List PruneArchive) : List PruneArchive :=
  (mostRecentFirst archives).filter fun a =>
    decide (a ∉ savedArchives cfg now archives)

/-- The retention tiers in the priority order stated by the claim. -/
inductive Tier where
  | daily
  | weekly
  | monthly
deriving DecidableEq

/-- Bucket key of a tier: start-of-day, start-of-Monday-week,
start-of-month of the archive timestamp. -/
def tierKey : Tier → DateTime → DateTime
  | .daily => TimeUtilities.day
  | .weekly => TimeUtilities.week
  | .monthly => TimeUtilities.month

/-- Quota of a tier. -/
def tierQuota : Tier → PruningConfig → WithTop Nat
  | .daily => PruningConfig.daily_count
  | .weekly => PruningConfig.weekly_count
  | .monthly => PruningConfig.monthly_count

/-- The freshness test of the claim: age under 24 hours at evaluation time. -/
abbrev IsFresh (now : DateTime) (a : PruneArchive) : Prop :=
  (now.toMicros : Int) - (a.datetime.toMicros : Int) < 86400000000

/-- Claim-side record of bucket representatives: tier, bucket key, and the
archive claimed as the representative of that bucket. -/
abbrev Claims := List (Tier × DateTime × PruneArchive)

/-- From the claim: the gate of tier `t` is open for archive `a` when the
bucket key of `a` at `t` has no representative yet and the number of filled
buckets at `t` is below the quota of that tier. -/
abbrev GateOpen (cfg : PruningConfig) (claims : Claims) (t : Tier)
    (a : PruneArchive) : Prop :=
  (((claims.filter fun c => decide (c.1 = t)).length : Nat) : WithTop Nat)
      < tierQuota t cfg ∧
    ∀ c ∈ claims, ¬(c.1 = t ∧ c.2.1 = tierKey t a.datetime)

/-- From the claim: the first gate in daily-then-weekly-then-monthly order
that is open. -/
def claimGate (cfg : PruningConfig) (claims : Claims) (a : PruneArchive) :
    Option Tier :=
  [Tier.daily, Tier.weekly, Tier.monthly].find? fun t =>
    decide (GateOpen cfg claims t a)

/-- From the claim: visit the archives most-recent-first; skip (and always
retain) fresh archives; every other archive is claimed by its first open
gate and becomes the representative of that bucket. -/
def claimPass (cfg : PruningConfig) (now : DateTime) :
    List PruneArchive → Claims → Claims
  | [], claims => claims
  | a :: rest, claims =>
    if IsFresh now a then claimPass cfg now rest claims
    else
      match claimGate cfg claims a with
      | some t =>
        claimPass cfg now rest (claims ++ [(t, tierKey t a.datetime, a)])
      | none => claimPass cfg now rest claims

/-- Projection of the claim-side record onto the dictionary of one tier. -/
def tierProj (t : Tier) (claims : Claims) : List (DateTime × PruneArchive) :=
  (claims.filter fun c => decide (c.1 = t)).map fun c => (c.2.1, c.2.2)

/-- One step of the claim-side pass. -/
def claimStep (cfg : PruningConfig) (now : DateTime) (claims : Claims)
    (a : PruneArchive) : Claims :=
  if IsFresh now a then claims
  else
    match claimGate cfg claims a with
    | some t => claims ++ [(t, tierKey t a.datetime, a)]
    | none => claims

theorem claimPass_cons (cfg : PruningConfig) (now : DateTime)
    (a : PruneArchive) (rest : List PruneArchive) (claims : Claims) :
    claimPass cfg now (a :: rest) claims
      = claimPass cfg now rest (claimStep cfg now claims a) := by
  by_cases hf : IsFresh now a
  · simp [claimPass, claimStep, hf]
  · cases hg : claimGate cfg claims a <;>
      simp [claimPass, claimStep, hf, hg]

/-- The Python freshness test `(now - dt).days < 1` says exactly that the
age is under 24 hours. -/
theorem fresh_cond_iff (now : DateTime) (a : PruneArchive) :
    (Int.fdiv ((now.toMicros : Int) - (a.datetime.toMicros : Int))
        86400000000 < 1) ↔ IsFresh now a := by
  unfold IsFresh
  rw [Int.fdiv_eq_ediv _ (by norm_num), Int.ediv_lt_iff_lt_mul (by norm_num)]
  norm_num

theorem claimGate_eq (cfg : PruningConfig) (claims : Claims)
    (a : PruneArchive) :
    claimGate cfg claims a =
      if GateOpen cfg claims Tier.daily a then some Tier.daily
      else if GateOpen cfg claims Tier.weekly a then some Tier.weekly
      else if GateOpen cfg claims Tier.monthly a then some Tier.monthly
      else none := by
  unfold claimGate
  by_cases h1 : GateOpen cfg claims Tier.daily a
  · rw [List.find?_cons, decide_eq_true h1, if_pos h1]
  · rw [List.find?_cons, decide_eq_false h1, if_neg h1]
    by_cases h2 : GateOpen cfg claims Tier.weekly a
    · rw [List.find?_cons, decide_eq_true h2, if_pos h2]
    · rw [List.find?_cons, decide_eq_false h2, if_neg h2]
      by_cases h3 : GateOpen cfg claims Tier.monthly a
      · rw [List.find?_cons, decide_eq_true h3, if_pos h3]
      · rw [List.find?_cons, decide_eq_false h3, if_neg h3, List.find?_nil]

/-- The per-tier gate condition of the code, over the tier dictionary, is
the gate condition of the claim over the claim record. -/
theorem gateOpen_iff (cfg : PruningConfig) (claims : Claims) (t : Tier)
    (a : PruneArchive) (l : List (DateTime × PruneArchive))
    (h : l = tierProj t claims) :
    ((l.length : WithTop Nat) < tierQuota t cfg ∧
        tierKey t a.datetime ∉ l.map Prod.fst)
      ↔ GateOpen cfg claims t a := by
  subst h
  unfold tierProj GateOpen
  rw [List.map_map, List.length_map]
  simp only [List.mem_map, List.mem_filter, Function.comp,
    decide_eq_true_eq, not_exists]
  constructor
  · rintro ⟨hlen, hmem⟩
    refine ⟨hlen, ?_⟩
    rintro c hc ⟨hct, hck⟩
    exact hmem c ⟨⟨hc, hct⟩, by simpa using hck⟩
  · rintro ⟨hlen, hall⟩
    refine ⟨hlen, ?_⟩
    rintro c ⟨⟨hc, hct⟩, hk⟩
    exact hall c hc ⟨hct, by simpa using hk⟩

theorem tierProj_append (t : Tier) (claims : Claims)
    (e : Tier × DateTime × PruneArchive) :
    tierProj t (claims ++ [e])
      = tierProj t claims
        ++ (if e.1 = t then [(e.2.1, e.2.2)] else []) := by
  unfold tierProj
  rw [List.filter_append, List.map_append]
  congr 1
  by_cases h : e.1 = t <;> simp [List.filter, h]

theorem tierQuota_daily (cfg : PruningConfig) :
    tierQuota Tier.daily cfg = cfg.daily_count := rfl

theorem tierQuota_weekly (cfg : PruningConfig) :
    tierQuota Tier.weekly cfg = cfg.weekly_count := rfl

theorem tierQuota_monthly (cfg : PruningConfig) :
    tierQuota Tier.monthly cfg = cfg.monthly_count := rfl

theorem tierKey_daily : tierKey Tier.daily = TimeUtilities.day := rfl

theorem tierKey_weekly : tierKey Tier.weekly = TimeUtilities.week := rfl

theorem tierKey_monthly : tierKey Tier.monthly = TimeUtilities.month := rfl

theorem claimStep_eq_fresh (cfg : PruningConfig) (now : DateTime)
    (claims : Claims) (a : PruneArchive) (hf : IsFresh now a) :
    claimStep cfg now claims a = claims := by
  unfold claimStep
  rw [if_pos hf]

theorem claimStep_eq_of_gate (cfg : PruningConfig) (now : DateTime)
    (claims : Claims) (a : PruneArchive) (hf : ¬ IsFresh now a) (t : Tier)
    (hg : claimGate cfg claims a = some t) :
    claimStep cfg now claims a = claims ++ [(t, tierKey t a.datetime, a)] := by
  unfold claimStep
  rw [if_neg hf, hg]

theorem claimStep_eq_none (cfg : PruningConfig) (now : DateTime)
    (claims : Claims) (a : PruneArchive) (hf : ¬ IsFresh now a)
    (hg : claimGate cfg claims a = none) :
    claimStep cfg now claims a = claims := by
  unfold claimStep
  rw [if_neg hf, hg]

/-- One step of the code pass tracks one step of the claim pass. -/
theorem pruneStep_corr (cfg : PruningConfig) (now : DateTime)
    (st : PruneState) (claims : Claims) (a : PruneArchive)
    (hd : st.daily_saved = tierProj Tier.daily claims)
    (hw : st.weekly_saved = tierProj Tier.weekly claims)
    (hm : st.monthly_saved = tierProj Tier.monthly claims) :
    (pruneStep cfg now st a).daily_saved
        = tierProj Tier.daily (claimStep cfg now claims a) ∧
      (pruneStep cfg now st a).weekly_saved
        = tierProj Tier.weekly (claimStep cfg now claims a) ∧
      (pruneStep cfg now st a).monthly_saved
        = tierProj Tier.monthly (claimStep cfg now claims a) ∧
      (pruneStep cfg now st a).fresh
        = st.fresh ++ (if IsFresh now a then [a] else []) := by
  have hdix := gateOpen_iff cfg claims Tier.daily a _ hd
  have hwix := gateOpen_iff cfg claims Tier.weekly a _ hw
  have hmix := gateOpen_iff cfg claims Tier.monthly a _ hm
  rw [tierQuota_daily, tierKey_daily] at hdix
  rw [tierQuota_weekly, tierKey_weekly] at hwix
  rw [tierQuota_monthly, tierKey_monthly] at hmix
  by_cases hf : IsFresh now a
  · rw [claimStep_eq_fresh cfg now claims a hf]
    unfold pruneStep
    rw [if_pos ((fresh_cond_iff now a).mpr hf), if_pos hf]
    exact ⟨hd, hw, hm, rfl⟩
  · have hnf : ¬ (Int.fdiv ((now.toMicros : Int)
        - (a.datetime.toMicros : Int)) 86400000000 < 1) :=
      fun hc => hf ((fresh_cond_iff now a).mp hc)
    rw [if_neg hf]
    by_cases h1 : GateOpen cfg claims Tier.daily a
    · have hg : claimGate cfg claims a = some Tier.daily := by
        rw [claimGate_eq, if_pos h1]
      rw [claimStep_eq_of_gate cfg now claims a hf Tier.daily hg]
      unfold pruneStep
      rw [if_neg hnf, if_pos (hdix.mpr h1)]
      refine ⟨?_, ?_, ?_, by simp⟩
      · show st.daily_saved ++ [(TimeUtilities.day a.datetime, a)] = _
        rw [tierProj_append, hd]
        simp [tierKey_daily]
      · show st.weekly_saved = _
        rw [tierProj_append, hw]
        simp
      · show st.monthly_saved = _
        rw [tierProj_append, hm]
        simp
    · have hnd : ¬ ((st.daily_saved.length : WithTop Nat) < cfg.daily_count ∧
          TimeUtilities.day a.datetime ∉ st.daily_saved.map Prod.fst) :=
        fun hc => h1 (hdix.mp hc)
      by_cases h2 : GateOpen cfg claims Tier.weekly a
      · have hg : claimGate cfg claims a = some Tier.weekly := by
          rw [claimGate_eq, if_neg h1, if_pos h2]
        rw [claimStep_eq_of_gate cfg now claims a hf Tier.weekly hg]
        unfold pruneStep
        rw [if_neg hnf, if_neg hnd, if_pos (hwix.mpr h2)]
        refine ⟨?_, ?_, ?_, by simp⟩
        · show st.daily_saved = _
          rw [tierProj_append, hd]
          simp
        · show st.weekly_saved ++ [(TimeUtilities.week a.datetime, a)] = _
          rw [tierProj_append, hw]
          simp [tierKey_weekly]
        · show st.monthly_saved = _
          rw [tierProj_append, hm]
          simp
      · have hnw : ¬ ((st.weekly_saved.length : WithTop Nat)
            < cfg.weekly_count ∧
            TimeUtilities.week a.datetime ∉ st.weekly_saved.map Prod.fst) :=
          fun hc => h2 (hwix.mp hc)
        by_cases h3 : GateOpen cfg claims Tier.monthly a
        · have hg : claimGate cfg claims a = some Tier.monthly := by
            rw [claimGate_eq, if_neg h1, if_neg h2, if_pos h3]
          rw [claimStep_eq_of_gate cfg now claims a hf Tier.monthly hg]
          unfold pruneStep
          rw [if_neg hnf, if_neg hnd, if_neg hnw, if_pos (hmix.mpr h3)]
          refine ⟨?_, ?_, ?_, by simp⟩
          · show st.daily_saved = _
            rw [tierProj_append, hd]
            simp
          · show st.weekly_saved = _
            rw [tierProj_append, hw]
            simp
          · show st.monthly_saved ++ [(TimeUtilities.month a.datetime, a)]
              = _
            rw [tierProj_append, hm]
            simp [tierKey_monthly]
        · have hnm : ¬ ((st.monthly_saved.length : WithTop Nat)
              < cfg.monthly_count ∧
              TimeUtilities.month a.datetime
                ∉ st.monthly_saved.map Prod.fst) :=
            fun hc => h3 (hmix.mp hc)
          have hg : claimGate cfg claims a = none := by
            rw [claimGate_eq, if_neg h1, if_neg h2, if_neg h3]
          rw [claimStep_eq_none cfg now claims a hf hg]
          unfold pruneStep
          rw [if_neg hnf, if_neg hnd, if_neg hnw, if_neg hnm]
          exact ⟨hd, hw, hm, by simp⟩

/-- The whole code pass tracks the whole claim pass. -/
theorem fold_corr (cfg : PruningConfig) (now : DateTime)
    (l : List PruneArchive) :
    ∀ (st : PruneState) (claims : Claims),
      st.daily_saved = tierProj Tier.daily claims →
      st.weekly_saved = tierProj Tier.weekly claims →
      st.monthly_saved = tierProj Tier.monthly claims →
      (l.foldl (pruneStep cfg now) st).daily_saved
          = tierProj Tier.daily (claimPass cfg now l claims) ∧
        (l.foldl (pruneStep cfg now) st).weekly_saved
          = tierProj Tier.weekly (claimPass cfg now l claims) ∧
        (l.foldl (pruneStep cfg now) st).monthly_saved
          = tierProj Tier.monthly (claimPass cfg now l claims) ∧
        (l.foldl (pruneStep cfg now) st).fresh
          = st.fresh ++ l.filter fun x => decide (IsFresh now x) := by
  induction l with
  | nil =>
    intro st claims hd hw hm
    exact ⟨hd, hw, hm, by simp [claimPass]⟩
  | cons a rest ih =>
    intro st claims hd hw hm
    rcases pruneStep_corr cfg now st claims a hd hw hm with ⟨cd, cw, cm, cf⟩
    rw [List.foldl_cons, claimPass_cons]
    rcases ih (pruneStep cfg now st a) (claimStep cfg now claims a) cd cw cm
      with ⟨rd, rw2, rm, rf⟩
    refine ⟨rd, rw2, rm, ?_⟩
    rw [rf, cf, List.filter_cons]
    by_cases hf : IsFresh now a <;> simp [hf]

theorem mem_tierProj_snd (t : Tier) (claims : Claims) (a : PruneArchive) :
    a ∈ (tierProj t claims).map Prod.snd ↔ ∃ k, (t, k, a) ∈ claims := by
  unfold tierProj
  rw [List.map_map]
  simp only [List.mem_map, List.mem_filter, Function.comp,
    decide_eq_true_eq]
  constructor
  · rintro ⟨⟨c1, ck, cb⟩, ⟨hc, hct⟩, hsnd⟩
    simp only at hct hsnd
    subst hct
    subst hsnd
    exact ⟨ck, hc⟩
  · rintro ⟨k, hk⟩
    exact ⟨(t, k, a), ⟨hk, rfl⟩, rfl⟩

/-- Each claim-pass entry either existed before the pass or records a
non-fresh archive of the visited list under its own bucket key. -/
theorem claimPass_entry_src (cfg : PruningConfig) (now : DateTime)
    (l : List PruneArchive) :
    ∀ (claims : Claims) (c : Tier × DateTime × PruneArchive),
      c ∈ claimPass cfg now l claims →
      c ∈ claims ∨ (c.2.1 = tierKey c.1 c.2.2.datetime ∧ c.2.2 ∈ l ∧
        ¬ IsFresh now c.2.2) := by
  induction l with
  | nil =>
    intro claims c hc
    exact Or.inl (by simpa [claimPass] using hc)
  | cons a rest ih =>
    intro claims c hc
    rw [claimPass_cons] at hc
    rcases ih _ c hc with hin | ⟨hk, hmem, hfr⟩
    · unfold claimStep at hin
      by_cases hf : IsFresh now a
      · rw [if_pos hf] at hin
        exact Or.inl hin
      · rw [if_neg hf] at hin
        cases hg : claimGate cfg claims a
        · rw [hg] at hin
          exact Or.inl hin
        · rename_i t
          rw [hg] at hin
          rcases List.mem_append.mp hin with h | h
          · exact Or.inl h
          · have he : c = (t, tierKey t a.datetime, a) := by simpa using h
            subst he
            exact Or.inr ⟨rfl, List.mem_cons_self a rest, hf⟩
    · exact Or.inr ⟨hk, List.mem_cons_of_mem a hmem, hfr⟩

/-- Bucket keys identify at most one representative. -/
def KeyUnique (claims : Claims) : Prop :=
  ∀ c1 ∈ claims, ∀ c2 ∈ claims, c1.1 = c2.1 → c1.2.1 = c2.2.1 → c1 = c2

theorem claimStep_keyUnique (cfg : PruningConfig) (now : DateTime)
    (claims : Claims) (a : PruneArchive) (h : KeyUnique claims) :
    KeyUnique (claimStep cfg now claims a) := by
  unfold claimStep
  by_cases hf : IsFresh now a
  · rwa [if_pos hf]
  · rw [if_neg hf]
    cases hg : claimGate cfg claims a
    · exact h
    · rename_i t
      have hopen : GateOpen cfg claims t a := by
        have hfound := List.find?_some hg
        exact of_decide_eq_true hfound
      intro c1 hc1 c2 hc2 ht hk
      rcases List.mem_append.mp hc1 with h1 | h1 <;>
        rcases List.mem_append.mp hc2 with h2 | h2
      · exact h c1 h1 c2 h2 ht hk
      · have he2 : c2 = (t, tierKey t a.datetime, a) := by simpa using h2
        subst he2
        exact absurd ⟨ht, hk⟩ (hopen.2 c1 h1)
      · have he1 : c1 = (t, tierKey t a.datetime, a) := by simpa using h1
        subst he1
        exact absurd ⟨ht.symm, hk.symm⟩ (hopen.2 c2 h2)
      · have he1 : c1 = (t, tierKey t a.datetime, a) := by simpa using h1
        have he2 : c2 = (t, tierKey t a.datetime, a) := by simpa using h2
        rw [he1, he2]

theorem claimPass_keyUnique (cfg : PruningConfig) (now : DateTime)
    (l : List PruneArchive) :
    ∀ (claims : Claims), KeyUnique claims →
      KeyUnique (claimPass cfg now l claims) := by
  induction l with
  | nil =>
    intro claims h
    simpa [claimPass] using h
  | cons a rest ih =>
    intro claims h
    rw [claimPass_cons]
    exact ih _ (claimStep_keyUnique cfg now claims a h)

/-- Membership in the `saved_archives` collection: fresh, or claimed as a
bucket representative during the claim-side pass. -/
theorem mem_savedArchives_iff (cfg : PruningConfig) (now : DateTime)
    (archives : List PruneArchive) (a : PruneArchive) :
    a ∈ savedArchives cfg now archives ↔
      ((a ∈ mostRecentFirst archives ∧ IsFresh now a) ∨
        ∃ c ∈ claimPass cfg now (mostRecentFirst archives) [],
          c.2.2 = a) := by
  unfold savedArchives pruneFoldState
  rcases fold_corr cfg now (mostRecentFirst archives) ⟨[], [], [], []⟩ []
    rfl rfl rfl with ⟨hd, hw, hm, hf⟩
  rw [hd, hw, hm, hf]
  simp only [List.mem_append, List.nil_append, List.mem_filter,
    decide_eq_true_eq, mem_tierProj_snd]
  constructor
  · rintro (((hfr | ⟨k, hk⟩) | ⟨k, hk⟩) | ⟨k, hk⟩)
    · exact Or.inl hfr
    · exact Or.inr ⟨(Tier.daily, k, a), hk, rfl⟩
    · exact Or.inr ⟨(Tier.weekly, k, a), hk, rfl⟩
    · exact Or.inr ⟨(Tier.monthly, k, a), hk, rfl⟩
  · rintro (hfr | ⟨⟨t, k, b⟩, hc, hb⟩)
    · exact Or.inl (Or.inl (Or.inl hfr))
    · simp only at hb
      subst hb
      cases t
      · exact Or.inl (Or.inl (Or.inr ⟨k, hc⟩))
      · exact Or.inl (Or.inr ⟨k, hc⟩)
      · exact Or.inr ⟨k, hc⟩

/-- C1: for every archive list and quota configuration,
`prunable_archives` returns exactly the archives that are neither fresh
(age under 24 hours; always retained and excluded from quota accounting)
nor claimed as a bucket representative, where archives are visited
most-recent-first and each non-fresh archive is claimed by the first gate
in daily-then-weekly-then-monthly order whose bucket key (start-of-day,
start-of-Monday-week, start-of-month of its timestamp) has no
representative yet and whose number of filled buckets is below that
quota of that tier (the pass `claimPass` below follows that sentence).
Each bucket key has at most one representative — necessarily the
most-recent-first claimer — and every representative carries its own
bucket key and is a non-fresh listed archive. -/
theorem claim_C1 (cfg : PruningConfig) (now : DateTime)
    (archives : List PruneArchive) :
    (∀ a, a ∈ prunable_archives cfg now archives ↔
        (a ∈ archives ∧ ¬ IsFresh now a ∧
          ∀ c ∈ claimPass cfg now (mostRecentFirst archives) [],
            c.2.2 ≠ a)) ∧
      (∀ t k a b,
        (t, k, a) ∈ claimPass cfg now (mostRecentFirst archives) [] →
        (t, k, b) ∈ claimPass cfg now (mostRecentFirst archives) [] →
        a = b) ∧
      (∀ t k a,
        (t, k, a) ∈ claimPass cfg now (mostRecentFirst archives) [] →
        k = tierKey t a.datetime ∧ a ∈ archives ∧ ¬ IsFresh now a) := by
  have hperm : (mostRecentFirst archives).Perm archives :=
    List.mergeSort_perm archives _
  refine ⟨?_, ?_, ?_⟩
  · intro a
    simp only [prunable_archives, List.mem_filter, decide_eq_true_eq]
    rw [mem_savedArchives_iff]
    constructor
    · rintro ⟨hmem, hnot⟩
      refine ⟨hperm.mem_iff.mp hmem,
        fun hfr => hnot (Or.inl ⟨hmem, hfr⟩), ?_⟩
      intro c hc hca
      exact hnot (Or.inr ⟨c, hc, hca⟩)
    · rintro ⟨hmem, hnfr, hnc⟩
      refine ⟨hperm.mem_iff.mpr hmem, ?_⟩
      rintro (⟨-, hfr⟩ | ⟨c, hc, hca⟩)
      · exact hnfr hfr
      · exact hnc c hc hca
  · intro t k a b ha hb
    have hku := claimPass_keyUnique cfg now (mostRecentFirst archives) []
      (fun c1 hc1 => absurd hc1 (List.not_mem_nil c1))
    have heq := hku (t, k, a) ha (t, k, b) hb rfl rfl
    simpa using heq
  · intro t k a hc
    rcases claimPass_entry_src cfg now (mostRecentFirst archives) []
      (t, k, a) hc with hin | ⟨hk, hmem, hfr⟩
    · exact absurd hin (List.not_mem_nil _)
    · exact ⟨hk, hperm.mem_iff.mp hmem, hfr⟩

/-! ## `Backup.perform`: backend chaining -/

/-- A backend attached to a backup, reduced to what `Backup.perform`
observes: the boolean its `perform` call would report, plus an identity
tag. -/
structure BackupBackend where
  ident : Nat
  performResult : Bool
deriving DecidableEq

/-- `Backup.perform`: `success = True`, then for each backend in order
`success = success and backend.perform(...)`.  Python `and`
short-circuits, so a backend is invoked only while `success` still holds;
the second component records the backends actually invoked, in order. -/
def Backup.perform (backends : List BackupBackend) :
    Bool × List BackupBackend :=
  backends.foldl
    (fun acc b => if acc.1 then (b.performResult, acc.2 ++ [b]) else acc)
    (true, [])

theorem perform_foldl_false (l : List BackupBackend)
    (acc : Bool × List BackupBackend) (h : acc.1 = false) :
    l.foldl (fun acc b => if acc.1 then (b.performResult, acc.2 ++ [b])
      else acc) acc = acc := by
  induction l generalizing acc with
  | nil => rfl
  | cons b rest ih =>
    rw [List.foldl_cons, if_neg (by simp [h])]
    exact ih acc h

theorem perform_foldl (l : List BackupBackend) :
    ∀ inv : List BackupBackend,
      l.foldl (fun acc b => if acc.1 then (b.performResult, acc.2 ++ [b])
          else acc) (true, inv)
        = (l.all (fun b => b.performResult),
            inv ++ l.take
              ((l.takeWhile fun b => b.performResult).length + 1)) := by
  induction l with
  | nil =>
    intro inv
    simp
  | cons b rest ih =>
    intro inv
    rw [List.foldl_cons, if_pos rfl]
    by_cases hb : b.performResult = true
    · rw [hb, ih (inv ++ [b])]
      simp [List.all_cons, hb, List.takeWhile_cons, List.take_succ_cons]
    · have hb2 : b.performResult = false := by
        cases hbv : b.performResult
        · rfl
        · exact absurd hbv hb
      rw [hb2, perform_foldl_false rest (false, inv ++ [b]) rfl]
      simp [List.all_cons, hb2, List.takeWhile_cons, List.take_succ_cons]

/-- C8: `Backup.perform` succeeds iff the `perform` call of every
attached backend reports success; backends are invoked in configured order, and the invoked
backends are exactly the initial run through the first failure (the list
when none fails) — after one failure no later backend is invoked. -/
theorem claim_C8 (backends : List BackupBackend) :
    ((Backup.perform backends).1 = true ↔
        ∀ b ∈ backends, b.performResult = true) ∧
      (Backup.perform backends).2
        = backends.take
            ((backends.takeWhile fun b => b.performResult).length + 1) := by
  unfold Backup.perform
  rw [perform_foldl backends []]
  exact ⟨by simp [List.all_eq_true], by simp⟩

/-! ## Archive specifiers: `archive_specifiers.py` -/

/-- Numeric value of a digit character. -/
def digitVal (c : Char) : Nat := c.toNat - 48

/-- Value of a digit run. -/
def digitsToNat (l : List Char) : Nat :=
  l.foldl (fun acc c => acc * 10 + digitVal c) 0

/-- A nonempty digit run and its value. -/
def parseDigits (l : List Char) : Option Nat :=
  if l ≠ [] ∧ l.all Char.isDigit then some (digitsToNat l) else none

/-- Leading `+`/`-` sign: whether the value is negated, and the rest. -/
def splitSign (l : List Char) : Bool × List Char :=
  if l.head? = some '-' then (true, l.tail)
  else if l.head? = some '+' then (false, l.tail)
  else (false, l)

/-- Python `int(str)`: optional sign then a nonempty digit run
(surrounding whitespace and digit group separators are not modelled). -/
def pyIntParse (s : String) : Option Int :=
  (parseDigits (splitSign s.toList).2).map fun n =>
    if (splitSign s.toList).1 then -(n : Int) else (n : Int)

/-- Exact value of a decimal float literal: `num * 10 ^ exp`.  (Python
floats round to binary; the claims here only ever compare against the
threshold 1,000,000,000 at values where rounding cannot cross it, so the
exact decimal value is the faithful embedding.) -/
structure DecFloat where
  num : Int
  exp : Int
deriving DecidableEq

def tenPow (n : Nat) : Int := (10 : Int) ^ n

/-- The rational value of a decimal literal (used in statements; proofs
compute on the integer representation). -/
def DecFloat.val (d : DecFloat) : ℚ := (d.num : ℚ) * (10 : ℚ) ^ d.exp

/-- A parsed Python float: exact decimal value, infinities, or nan. -/
inductive PyFloat where
  | finite (d : DecFloat)
  | inf
  | negInf
  | nan
deriving DecidableEq

/-- The float comparison `value > t` for an integer threshold `t`:
`num * 10 ^ exp > t`, decided in integer arithmetic. -/
def PyFloat.gtInt : PyFloat → Int → Bool
  | .finite d, t =>
    if 0 ≤ d.exp then decide (t < d.num * tenPow d.exp.toNat)
    else decide (t * tenPow (-d.exp).toNat < d.num)
  | .inf, _ => true
  | .negInf, _ => false
  | .nan, _ => false

/-- Optional sign then a nonempty digit run, as an integer. -/
def parseSignedDigits (l : List Char) : Option Int :=
  (parseDigits (splitSign l).2).map fun n =>
    if (splitSign l).1 then -(n : Int) else (n : Int)

/-- Exponent tail of a float literal: empty, or `e`/`E` then an optionally
signed nonempty digit run. -/
def parseExpPart (l : List Char) : Option Int :=
  if l = [] then some 0
  else if l.head? = some 'e' ∨ l.head? = some 'E' then
    parseSignedDigits l.tail
  else none

/-- Unsigned float literal `digits [. digits] [exp]`, at least one digit
present, with its exact decimal value. -/
def parseUnsignedFloat (l : List Char) : Option DecFloat :=
  let ip := l.takeWhile Char.isDigit
  let rest1 := l.dropWhile Char.isDigit
  if rest1.head? = some '.' then
    let fp := rest1.tail.takeWhile Char.isDigit
    let rest3 := rest1.tail.dropWhile Char.isDigit
    if ip = [] ∧ fp = [] then none
    else
      (parseExpPart rest3).map fun e =>
        ⟨(digitsToNat ip : Int) * tenPow fp.length + (digitsToNat fp : Int),
          e - (fp.length : Int)⟩
  else if ip = [] then none
  else (parseExpPart rest1).map fun e => ⟨(digitsToNat ip : Int), e⟩

/-- The integer decision procedure of `PyFloat.gtInt` agrees with the
rational value semantics of the literal. -/
theorem gtInt_iff_val (d : DecFloat) (t : Int) :
    PyFloat.gtInt (PyFloat.finite d) t = decide ((t : ℚ) < d.val) := by
  simp only [PyFloat.gtInt, tenPow, DecFloat.val]
  by_cases he : 0 ≤ d.exp
  · rw [if_pos he]
    apply decide_eq_decide.mpr
    obtain ⟨n, hn⟩ : ∃ n : Nat, d.exp = (n : Int) :=
      ⟨d.exp.toNat, (Int.toNat_of_nonneg he).symm⟩
    rw [hn]
    simp only [Int.toNat_natCast, zpow_natCast]
    constructor
    · intro h
      have h2 : ((t : Int) : ℚ) < ((d.num * 10 ^ n : Int) : ℚ) := by
        exact_mod_cast h
      push_cast at h2
      linarith
    · intro h
      have h2 : ((t : Int) : ℚ) < ((d.num * 10 ^ n : Int) : ℚ) := by
        push_cast
        linarith
      exact_mod_cast h2
  · rw [if_neg he]
    apply decide_eq_decide.mpr
    obtain ⟨n, hn⟩ : ∃ n : Nat, d.exp = -(n : Int) :=
      ⟨(-d.exp).toNat, by omega⟩
    rw [hn]
    simp only [neg_neg, Int.toNat_natCast, zpow_neg, zpow_natCast]
    have hpos : (0 : ℚ) < (10 : ℚ) ^ n := by positivity
    rw [← div_eq_mul_inv, lt_div_iff₀ hpos]
    constructor
    · intro h
      have h2 : ((t * 10 ^ n : Int) : ℚ) < ((d.num : Int) : ℚ) := by
        exact_mod_cast h
      push_cast at h2
      linarith
    · intro h
      have h2 : ((t * 10 ^ n : Int) : ℚ) < ((d.num : Int) : ℚ) := by
        push_cast
        linarith
      exact_mod_cast h2

/-- One character of a case-insensitive keyword. -/
def caseEq (c lower upper : Char) : Bool := c == lower || c == upper

def isInfWord : List Char → Bool
  | [c1, c2, c3] =>
    caseEq c1 'i' 'I' && caseEq c2 'n' 'N' && caseEq c3 'f' 'F'
  | _ => false

def isInfinityWord : List Char → Bool
  | [c1, c2, c3, c4, c5, c6, c7, c8] =>
    caseEq c1 'i' 'I' && caseEq c2 'n' 'N' && caseEq c3 'f' 'F' &&
      caseEq c4 'i' 'I' && caseEq c5 'n' 'N' && caseEq c6 'i' 'I' &&
      caseEq c7 't' 'T' && caseEq c8 'y' 'Y'
  | _ => false

def isNanWord : List Char → Bool
  | [c1, c2, c3] =>
    caseEq c1 'n' 'N' && caseEq c2 'a' 'A' && caseEq c3 'n' 'N'
  | _ => false

/-- `inf`, `infinity`, `nan` (case-insensitive). -/
def parseUnsignedSpecial (l : List Char) : Option PyFloat :=
  if isInfWord l || isInfinityWord l then some PyFloat.inf
  else if isNanWord l then some PyFloat.nan
  else none

def pyFloatCore (l : List Char) (neg : Bool) : Option PyFloat :=
  match parseUnsignedSpecial l with
  | some PyFloat.inf => some (if neg then PyFloat.negInf else PyFloat.inf)
  | some v => some v
  | none =>
    (parseUnsignedFloat l).map fun d =>
      PyFloat.finite (if neg then ⟨-d.num, d.exp⟩ else d)

/-- Python `float(str)` with the exact value of the literal (surrounding
whitespace and digit group separators are not modelled). -/
def pyFloatParse (s : String) : Option PyFloat :=
  pyFloatCore (splitSign s.toList).2 (splitSign s.toList).1

/-- `"." in specifier_str` -/
def hasDot (s : String) : Bool := s.toList.contains '.'

namespace OrdinalArchiveSpecifier

/-- `OrdinalArchiveSpecifier.acceptable_specifier`: the string parses as
an integer whose value is below 1,000,000,000. -/
def acceptable_specifier (s : String) : Bool :=
  match pyIntParse s with
  | none => false
  | some v => decide (v < 1000000000)

end OrdinalArchiveSpecifier

namespace TimestampArchiveSpecifier

/-- `TimestampArchiveSpecifier.acceptable_specifier`: the string parses
as a float and (the value is strictly greater than 1,000,000,000, or the
string contains a decimal point). -/
def acceptable_specifier (s : String) : Bool :=
  match pyFloatParse s with
  | none => false
  | some v => v.gtInt 1000000000 || hasDot s

end TimestampArchiveSpecifier

theorem ordinal_acceptable_none (s : String) (h : pyIntParse s = none) :
    OrdinalArchiveSpecifier.acceptable_specifier s = false := by
  unfold OrdinalArchiveSpecifier.acceptable_specifier
  rw [h]

theorem ordinal_acceptable_some (s : String) (v : Int)
    (h : pyIntParse s = some v) :
    OrdinalArchiveSpecifier.acceptable_specifier s
      = decide (v < 1000000000) := by
  unfold OrdinalArchiveSpecifier.acceptable_specifier
  rw [h]

theorem timestamp_acceptable_none (s : String) (h : pyFloatParse s = none) :
    TimestampArchiveSpecifier.acceptable_specifier s = false := by
  unfold TimestampArchiveSpecifier.acceptable_specifier
  rw [h]

theorem timestamp_acceptable_some (s : String) (v : PyFloat)
    (h : pyFloatParse s = some v) :
    TimestampArchiveSpecifier.acceptable_specifier s
      = (v.gtInt 1000000000 || hasDot s) := by
  unfold TimestampArchiveSpecifier.acceptable_specifier
  rw [h]

/-- C3 fails on the code: the string "1000000000" parses as a float whose
value is exactly 1,000,000,000 and contains no decimal point, so the
claim (acceptance when the value is greater than or equal to the
threshold) says it is accepted; the strict comparison in the code rejects
it. -/
theorem claim_C3_counterexample :
    pyFloatParse "1000000000" = some (PyFloat.finite ⟨1000000000, 0⟩) ∧
      (DecFloat.mk 1000000000 0).val = 1000000000 ∧
      hasDot "1000000000" = false ∧
      TimestampArchiveSpecifier.acceptable_specifier "1000000000"
        = false := by
  refine ⟨by decide, ?_, by decide, by decide⟩
  norm_num [DecFloat.val]

/-- C3 amended: the Timestamp matcher accepts a string exactly when it
parses as a float and (its value is STRICTLY greater than 1,000,000,000,
or the string contains a decimal point); in particular the boundary
string "1000000000" is rejected. -/
theorem claim_C3_amended (s : String) :
    TimestampArchiveSpecifier.acceptable_specifier s = true ↔
      ∃ v, pyFloatParse s = some v ∧
        (v.gtInt 1000000000 = true ∨ hasDot s = true) := by
  rcases hv : pyFloatParse s with _ | v
  · rw [timestamp_acceptable_none s hv]
    simp
  · rw [timestamp_acceptable_some s v hv]
    simp [Bool.or_eq_true]

theorem takeWhile_all_eq (p : Char → Bool) (l : List Char)
    (h : l.all p = true) : l.takeWhile p = l := by
  induction l with
  | nil => rfl
  | cons c t ih =>
    simp only [List.all_cons, Bool.and_eq_true] at h
    simp [List.takeWhile_cons, h.1, ih h.2]

theorem dropWhile_all_eq (p : Char → Bool) (l : List Char)
    (h : l.all p = true) : l.dropWhile p = [] := by
  induction l with
  | nil => rfl
  | cons c t ih =>
    simp only [List.all_cons, Bool.and_eq_true] at h
    simp [List.dropWhile_cons, h.1, ih h.2]

theorem caseEq_digit_false (c lo up : Char) (hd : c.isDigit = true)
    (hlo : lo.isDigit = false) (hup : up.isDigit = false) :
    caseEq c lo up = false := by
  unfold caseEq
  cases hq1 : c == lo
  · cases hq2 : c == up
    · rfl
    · rw [beq_iff_eq] at hq2
      subst hq2
      rw [hd] at hup
      exact absurd hup (by simp)
  · rw [beq_iff_eq] at hq1
    subst hq1
    rw [hd] at hlo
    exact absurd hlo (by simp)

theorem isInfWord_digits (l : List Char) (h : l.all Char.isDigit = true) :
    isInfWord l = false := by
  rcases l with _ | ⟨c1, _ | ⟨c2, _ | ⟨c3, _ | ⟨c4, rest⟩⟩⟩⟩ <;> try rfl
  simp only [List.all_cons, Bool.and_eq_true] at h
  simp only [isInfWord]
  rw [caseEq_digit_false c1 'i' 'I' h.1 (by decide) (by decide)]
  rfl

theorem isInfinityWord_digits (l : List Char)
    (h : l.all Char.isDigit = true) : isInfinityWord l = false := by
  rcases l with _ | ⟨c1, _ | ⟨c2, _ | ⟨c3, _ | ⟨c4, _ | ⟨c5, _ | ⟨c6,
    _ | ⟨c7, _ | ⟨c8, rest⟩⟩⟩⟩⟩⟩⟩⟩ <;> try rfl
  rcases rest with _ | ⟨c9, rest2⟩
  · simp only [List.all_cons, Bool.and_eq_true] at h
    simp only [isInfinityWord]
    rw [caseEq_digit_false c1 'i' 'I' h.1 (by decide) (by decide)]
    rfl
  · rfl

theorem isNanWord_digits (l : List Char) (h : l.all Char.isDigit = true) :
    isNanWord l = false := by
  rcases l with _ | ⟨c1, _ | ⟨c2, _ | ⟨c3, _ | ⟨c4, rest⟩⟩⟩⟩ <;> try rfl
  simp only [List.all_cons, Bool.and_eq_true] at h
  simp only [isNanWord]
  rw [caseEq_digit_false c1 'n' 'N' h.1 (by decide) (by decide)]
  rfl

theorem parseUnsignedSpecial_digits (l : List Char)
    (h : l.all Char.isDigit = true) : parseUnsignedSpecial l = none := by
  unfold parseUnsignedSpecial
  rw [isInfWord_digits l h, isInfinityWord_digits l h, isNanWord_digits l h]
  rfl

theorem parseUnsignedFloat_digits (l : List Char) (hne : l ≠ [])
    (h : l.all Char.isDigit = true) :
    parseUnsignedFloat l = some ⟨(digitsToNat l : Int), 0⟩ := by
  simp only [parseUnsignedFloat]
  rw [takeWhile_all_eq _ _ h, dropWhile_all_eq _ _ h]
  simp [hne, parseExpPart]

theorem pyFloatCore_digits (l : List Char) (hne : l ≠ [])
    (h : l.all Char.isDigit = true) (neg : Bool) :
    pyFloatCore l neg
      = some (PyFloat.finite
          (if neg then ⟨-(digitsToNat l : Int), 0⟩
            else ⟨(digitsToNat l : Int), 0⟩)) := by
  unfold pyFloatCore
  rw [parseUnsignedSpecial_digits l h, parseUnsignedFloat_digits l hne h]
  cases neg <;> rfl

theorem parseDigits_some (l : List Char) (n : Nat)
    (h : parseDigits l = some n) :
    l ≠ [] ∧ l.all Char.isDigit = true ∧ digitsToNat l = n := by
  unfold parseDigits at h
  split at h
  · rename_i hc
    exact ⟨hc.1, hc.2, by injection h⟩
  · exact absurd h (by simp)

theorem digits_not_mem_dot (l : List Char)
    (h : l.all Char.isDigit = true) : '.' ∉ l := by
  intro hmem
  rw [List.all_eq_true] at h
  exact absurd (h '.' hmem) (by decide)

theorem hasDot_false_of_digits (s : String)
    (h : ((splitSign s.toList).2).all Char.isDigit = true) :
    hasDot s = false := by
  unfold hasDot
  cases hq : s.toList.contains '.'
  · rfl
  · exfalso
    have hmem : '.' ∈ s.toList := by simpa using hq
    rcases hl : s.toList with _ | ⟨c, t⟩
    · rw [hl] at hmem
      exact absurd hmem (List.not_mem_nil _)
    · rw [hl] at hmem h
      by_cases hminus : c = '-'
      · subst hminus
        rw [show splitSign ('-' :: t) = (true, t) from rfl] at h
        rcases List.mem_cons.mp hmem with he | he
        · exact absurd he (by decide)
        · exact absurd he (digits_not_mem_dot t h)
      · by_cases hplus : c = '+'
        · subst hplus
          rw [show splitSign ('+' :: t) = (false, t) from rfl] at h
          rcases List.mem_cons.mp hmem with he | he
          · exact absurd he (by decide)
          · exact absurd he (digits_not_mem_dot t h)
        · have hsp : splitSign (c :: t) = (false, c :: t) := by
            unfold splitSign
            rw [if_neg (by simpa using hminus), if_neg (by simpa using hplus)]
          rw [hsp] at h
          exact absurd hmem (digits_not_mem_dot (c :: t) h)

theorem pyIntParse_pyFloatParse (s : String) (v : Int)
    (h : pyIntParse s = some v) :
    pyFloatParse s = some (PyFloat.finite ⟨v, 0⟩) ∧ hasDot s = false := by
  unfold pyIntParse at h
  rcases hp : parseDigits (splitSign s.toList).2 with _ | n
  · rw [hp] at h
    exact absurd h (by simp)
  · rw [hp] at h
    obtain ⟨hne, hall, hval⟩ := parseDigits_some _ _ hp
    refine ⟨?_, hasDot_false_of_digits s hall⟩
    unfold pyFloatParse
    rw [pyFloatCore_digits _ hne hall, hval]
    cases hsg : (splitSign s.toList).1 <;> rw [hsg] at h <;> simp at h <;>
      simp [← h]

/-- C10: no input string is accepted by both the Ordinal and the
Timestamp predicates: a string parsing as an integer contains no decimal
point, Ordinal needs its value strictly below 1,000,000,000 and Timestamp
then needs it strictly above, so auto-detection never has to arbitrate
between the two matchers. -/
theorem claim_C10 (s : String) :
    (OrdinalArchiveSpecifier.acceptable_specifier s &&
      TimestampArchiveSpecifier.acceptable_specifier s) = false := by
  rcases hv : pyIntParse s with _ | v
  · rw [ordinal_acceptable_none s hv]
    rfl
  · rw [ordinal_acceptable_some s v hv]
    by_cases hlt : v < 1000000000
    · obtain ⟨hfl, hdot⟩ := pyIntParse_pyFloatParse s v hv
      rw [timestamp_acceptable_some s _ hfl, hdot]
      have hgt : PyFloat.gtInt (PyFloat.finite ⟨v, 0⟩) 1000000000
          = false := by
        simp only [PyFloat.gtInt, tenPow]
        rw [if_pos (le_refl (0 : Int))]
        refine decide_eq_false ?_
        simp only [Int.toNat_zero, pow_zero, mul_one]
        omega
      rw [hgt]
      simp
    · rw [decide_eq_false hlt]
      rfl

/-! ## Specifier auto-detection (C5) -/

/-- Modelled from the spec: `FuzzyDatetimeArchiveSpecifier
.acceptable_specifier` accepts a string when `dateutil.parser.parse`
succeeds ("parses as a calendar date/time expression").  dateutil is a
third-party library whose code is not in this repository, so this is a
fragment of its documented grammar covering the inputs the claims use:
ISO dates `YYYY-MM-DD`, and bare one- or two-digit numbers, which
dateutil reads as a day of the default month (so "5" parses as the 5th);
long numeric strings such as "1416279400.0" fit no dateutil date format
and raise. -/
def FuzzyDatetimeArchiveSpecifier.acceptable_specifier (s : String) :
    Bool :=
  match s.toList with
  | [d1] => d1.isDigit && decide (1 ≤ digitVal d1)
  | [d1, d2] => d1.isDigit && d2.isDigit &&
      decide (1 ≤ digitsToNat [d1, d2] ∧ digitsToNat [d1, d2] ≤ 31)
  | [y1, y2, y3, y4, '-', m1, m2, '-', d1, d2] =>
      y1.isDigit && y2.isDigit && y3.isDigit && y4.isDigit &&
        m1.isDigit && m2.isDigit && d1.isDigit && d2.isDigit &&
        decide (1 ≤ digitsToNat [m1, m2] ∧ digitsToNat [m1, m2] ≤ 12 ∧
          1 ≤ digitsToNat [d1, d2] ∧ digitsToNat [d1, d2] ≤ 31)
  | _ => false

/-- The three concrete specifier classes of `archive_specifiers.py`. -/
inductive SpecifierType where
  | ordinal
  | timestamp
  | fuzzyDatetime
deriving DecidableEq

def SpecifierType.acceptable_specifier : SpecifierType → String → Bool
  | .ordinal => OrdinalArchiveSpecifier.acceptable_specifier
  | .timestamp => TimestampArchiveSpecifier.acceptable_specifier
  | .fuzzyDatetime => FuzzyDatetimeArchiveSpecifier.acceptable_specifier

/-- `ArchiveSpecifierMeta.__call__`: try the concrete specifier types in
the iteration order of the `CONCRETE_SPECIFIERS` set — an order Python
leaves unspecified, hence the `order` parameter — and build the first one
whose predicate accepts the string. -/
def buildSpecifier (order : List SpecifierType) (s : String) :
    Option SpecifierType :=
  order.find? fun t => t.acceptable_specifier s

/-- When exactly one specifier type accepts `s`, the builder returns it
whatever the set iteration order. -/
theorem buildSpecifier_unique_acceptor (s : String) (t0 : SpecifierType)
    (hacc : ∀ t : SpecifierType,
      t.acceptable_specifier s = decide (t = t0)) :
    ∀ order : List SpecifierType, t0 ∈ order →
      buildSpecifier order s = some t0 := by
  intro order hmem
  induction order with
  | nil => exact absurd hmem (List.not_mem_nil t0)
  | cons h rest ih =>
    unfold buildSpecifier at ih ⊢
    rw [List.find?_cons]
    by_cases hh : h = t0
    · subst hh
      rw [hacc h, decide_eq_true rfl]
    · rw [hacc h, decide_eq_false hh]
      exact ih (by
        rcases List.mem_cons.mp hmem with he | he
        · exact absurd he.symm hh
        · exact he)

/-- C5 fails on the code: "5" is accepted both by the Ordinal predicate
and by the FuzzyDate predicate (dateutil parses a bare small number as a
day of month), so "5" is not accepted by exactly one of the three matcher
types — and the set-iteration builder may yield either matcher for it. -/
theorem claim_C5_counterexample :
    OrdinalArchiveSpecifier.acceptable_specifier "5" = true ∧
      FuzzyDatetimeArchiveSpecifier.acceptable_specifier "5" = true ∧
      buildSpecifier [SpecifierType.ordinal, SpecifierType.timestamp,
          SpecifierType.fuzzyDatetime] "5" = some SpecifierType.ordinal ∧
      buildSpecifier [SpecifierType.fuzzyDatetime, SpecifierType.ordinal,
          SpecifierType.timestamp] "5"
        = some SpecifierType.fuzzyDatetime := by
  refine ⟨?_, ?_, ?_, ?_⟩ <;> decide

/-- C5 amended: "1416279400.0" is accepted only by the Timestamp
predicate and "2014-11-17" only by the FuzzyDate predicate, so the
builder yields those matchers whatever the set iteration order; "5" is
not accepted by Timestamp and "1416279400.0" is not accepted by Ordinal;
but "5" is accepted by both Ordinal and FuzzyDate, so its matcher
depends on the unspecified set order. -/
theorem claim_C5_amended :
    (∀ order : List SpecifierType, SpecifierType.timestamp ∈ order →
        buildSpecifier order "1416279400.0" = some SpecifierType.timestamp) ∧
      (∀ order : List SpecifierType, SpecifierType.fuzzyDatetime ∈ order →
        buildSpecifier order "2014-11-17"
          = some SpecifierType.fuzzyDatetime) ∧
      TimestampArchiveSpecifier.acceptable_specifier "5" = false ∧
      OrdinalArchiveSpecifier.acceptable_specifier "1416279400.0"
        = false := by
  refine ⟨?_, ?_, by decide, by decide⟩
  · exact buildSpecifier_unique_acceptor "1416279400.0"
      SpecifierType.timestamp (by intro t; cases t <;> decide)
  · exact buildSpecifier_unique_acceptor "2014-11-17"
      SpecifierType.fuzzyDatetime (by intro t; cases t <;> decide)

theorem claim_C5_amended_witness :
    (SpecifierType.timestamp ∈ [SpecifierType.ordinal,
        SpecifierType.timestamp, SpecifierType.fuzzyDatetime]) ∧
      (SpecifierType.fuzzyDatetime ∈ [SpecifierType.ordinal,
        SpecifierType.timestamp, SpecifierType.fuzzyDatetime]) ∧
      buildSpecifier [SpecifierType.ordinal, SpecifierType.timestamp,
          SpecifierType.fuzzyDatetime] "1416279400.0"
        = some SpecifierType.timestamp ∧
      buildSpecifier [SpecifierType.ordinal, SpecifierType.timestamp,
          SpecifierType.fuzzyDatetime] "2014-11-17"
        = some SpecifierType.fuzzyDatetime :=
  ⟨by decide, by decide,
    claim_C5_amended.1 _ (by decide),
    claim_C5_amended.2.1 _ (by decide)⟩

/-! ## FuzzyDate evaluation (C4) -/

/-- The six calendar fields the fuzzy matcher looks at. -/
inductive DTField where
  | year
  | month
  | day
  | hour
  | minute
  | second
deriving DecidableEq

def DateTime.field (d : DateTime) : DTField → Nat
  | .year => d.year
  | .month => d.month
  | .day => d.day
  | .hour => d.hour
  | .minute => d.minute
  | .second => d.second

/-- The `check` list of `FuzzyDatetimeArchiveSpecifier.evaluate`. -/
def checkList : List DTField :=
  [DTField.year, DTField.month, DTField.day, DTField.hour, DTField.minute,
    DTField.second]

/-- `evaluate` trims from the end of the check list the fields whose
parsed value equals zero (day is never trimmed): `reversed(dropwhile(
lambda k: getattr(self.datetime, k) == 0 and k != "day",
reversed(check)))`. -/
def checkFields (specDT : DateTime) : List DTField :=
  (checkList.reverse.dropWhile fun k =>
    decide (specDT.field k = 0 ∧ k ≠ DTField.day)).reverse

/-- `FuzzyDatetimeArchiveSpecifier.evaluate` (the model carries a single
timezone, making the `astimezone` conversion of the archive datetime the
identity). -/
def FuzzyDatetimeArchiveSpecifier.evaluate (specDT archiveDT : DateTime) :
    Bool :=
  (checkFields specDT).all fun k => specDT.field k == archiveDT.field k

/-- Modelled from the spec: `dateutil.parser.parse(s, default=
datetime(1, 1, 1))` — the parsed datetime takes the user-supplied value
on supplied fields and the sentinel default elsewhere (year 1, month 1,
day 1, hour 0, minute 0, second 0). -/
def parseWithDefault (supplied : DTField → Bool) (value : DTField → Nat) :
    DateTime :=
  { year := if supplied DTField.year then value DTField.year else 1
    month := if supplied DTField.month then value DTField.month else 1
    day := if supplied DTField.day then value DTField.day else 1
    hour := if supplied DTField.hour then value DTField.hour else 0
    minute := if supplied DTField.minute then value DTField.minute else 0
    second := if supplied DTField.second then value DTField.second else 0
    micro := 0 }

/-- Granularity rank of a field, year coarsest. -/
def DTField.grain : DTField → Nat
  | .year => 0
  | .month => 1
  | .day => 2
  | .hour => 3
  | .minute => 4
  | .second => 5

def maxSuppliedGrain (supplied : DTField → Bool) : Nat :=
  (checkList.filter supplied).foldl (fun m k => max m k.grain) 0

/-- The fields the claim says are compared: year down to the most
granular supplied field, with day always included. -/
def claimComparedFields (supplied : DTField → Bool) : List DTField :=
  checkList.filter fun k =>
    decide (k.grain ≤ max 2 (maxSuppliedGrain supplied))

/-- Supplied values of the counterexample: the user wrote the full
timestamp `2014-11-17 12:30:00`, seconds explicitly zero. -/
def c4values : DTField → Nat
  | .year => 2014
  | .month => 11
  | .day => 17
  | .hour => 12
  | .minute => 30
  | .second => 0

/-- C4 fails on the code: with every field supplied and the second
explicitly zero, `evaluate` accepts an archive whose seconds differ — the
zero-valued trailing second is trimmed from the comparison even though
the user supplied it, while the claim requires every supplied field to be
compared. -/
theorem claim_C4_counterexample :
    FuzzyDatetimeArchiveSpecifier.evaluate
        (parseWithDefault (fun _ => true) c4values)
        (DateTime.mk 2014 11 17 12 30 45 0) = true ∧
      DTField.second ∈ claimComparedFields (fun _ => true) ∧
      (parseWithDefault (fun _ => true) c4values).field DTField.second
        ≠ (DateTime.mk 2014 11 17 12 30 45 0).field DTField.second := by
  refine ⟨?_, ?_, ?_⟩ <;> decide

/-- The most granular of hour, minute and second that is nonzero in the
parsed datetime (2 when they are all zero, since day is never trimmed). -/
def lastNonzeroTimeGrain (dt : DateTime) : Nat :=
  if dt.second ≠ 0 then 5
  else if dt.minute ≠ 0 then 4
  else if dt.hour ≠ 0 then 3
  else 2

/-- The fields the code actually compares. -/
def amendedComparedFields (dt : DateTime) : List DTField :=
  checkList.filter fun k => decide (k.grain ≤ lastNonzeroTimeGrain dt)

theorem checkFields_eq_amended (dt : DateTime) :
    checkFields dt = amendedComparedFields dt := by
  by_cases hs : dt.second = 0 <;> by_cases hm : dt.minute = 0 <;>
    by_cases hh : dt.hour = 0 <;>
    simp [checkFields, checkList, amendedComparedFields,
      lastNonzeroTimeGrain, DTField.grain, DateTime.field,
      List.dropWhile_cons, List.filter_cons, hs, hm, hh]

/-- C4 amended: evaluation always compares year, month and day, and
additionally hour, minute and second up to the most granular of them that
is NONZERO in the parsed datetime — trailing zero-valued time fields are
omitted even when the user supplied them, and year and month are compared
even when the user did not supply them (against the sentinel defaults). -/
theorem claim_C4_amended (specDT archiveDT : DateTime) :
    FuzzyDatetimeArchiveSpecifier.evaluate specDT archiveDT = true ↔
      ∀ k ∈ amendedComparedFields specDT,
        specDT.field k = archiveDT.field k := by
  unfold FuzzyDatetimeArchiveSpecifier.evaluate
  rw [checkFields_eq_amended]
  simp [List.all_eq_true]

/-! ## Restore resolution: the core loop of `Application.restore_backup` -/

structure RestoreArchive where
  ident : Nat
  datetime : DateTime
deriving DecidableEq

/-- Outcome of the restore verb: either the backend restore operation is
invoked on one archive, or a domain error is raised. -/
inductive RestoreOutcome where
  | restored (a : RestoreArchive)
  | errorNoMatch (msg : String)
  | errorMultipleMatch (msg : String)
deriving DecidableEq

def pad2 (n : Nat) : String :=
  if n < 10 then "0" ++ toString n else toString n

/-- `pretty_archive`: the human-readable local time of the archive
(`strftime("%Y-%m-%d %H:%M:%S")`). -/
def pretty_archive (a : RestoreArchive) : String :=
  toString a.datetime.year ++ "-" ++ pad2 a.datetime.month ++ "-"
    ++ pad2 a.datetime.day ++ " " ++ pad2 a.datetime.hour ++ ":"
    ++ pad2 a.datetime.minute ++ ":" ++ pad2 a.datetime.second

/-- The matching loop of `restore_backup`: archives sorted ascending by
timestamp and enumerated from zero; keep those the built specifier
accepts at their (archive, position) pair. -/
def restore_matches (eval : RestoreArchive → Nat → Bool)
    (archives : List RestoreArchive) : List RestoreArchive :=
  (((archives.mergeSort fun x y =>
        decide (x.datetime.toMicros ≤ y.datetime.toMicros)).enum.filter
      fun p => eval p.2 p.1).map Prod.snd)

/-- The multiple-match error text: the base message followed by one
line with the human-readable timestamp of each matching archive. -/
def multipleMatchMessage (specStr : String)
    (ms : List RestoreArchive) : String :=
  ms.foldl (fun m a => m ++ "\n\t" ++ pretty_archive a)
    ("Spec " ++ specStr ++ " matched more than one archive!")

/-- `Application.restore_backup` after backup and backend resolution:
raise on more than one match, raise on zero matches, otherwise restore
the head match (the `none` head branch is unreachable: the zero-match
test has already fired). -/
def restore_backup (specStr : String)
    (eval : RestoreArchive → Nat → Bool)
    (archives : List RestoreArchive) : RestoreOutcome :=
  let ms := restore_matches eval archives
  if ms.length > 1 then
    RestoreOutcome.errorMultipleMatch (multipleMatchMessage specStr ms)
  else if ms.length = 0 then
    RestoreOutcome.errorNoMatch
      ("Spec " ++ specStr ++ " matched no archives!")
  else
    match ms.head? with
    | some a => RestoreOutcome.restored a
    | none =>
      RestoreOutcome.errorNoMatch
        ("Spec " ++ specStr ++ " matched no archives!")

/-- C2: over the listing sorted ascending by timestamp, zero specifier
matches raise the domain error naming the unmatched spec, several matches
raise the domain error enumerating the human-readable timestamp of every
matching archive, and the backend restore operation is invoked
exactly when exactly one archive matches — on that archive. -/
theorem claim_C2 (specStr : String) (eval : RestoreArchive → Nat → Bool)
    (archives : List RestoreArchive) :
    (restore_backup specStr eval archives
        = match restore_matches eval archives with
          | [] => RestoreOutcome.errorNoMatch
              ("Spec " ++ specStr ++ " matched no archives!")
          | [a] => RestoreOutcome.restored a
          | ms => RestoreOutcome.errorMultipleMatch
              (multipleMatchMessage specStr ms)) ∧
      ∀ a, restore_backup specStr eval archives
          = RestoreOutcome.restored a
        ↔ restore_matches eval archives = [a] := by
  rcases hm : restore_matches eval archives with _ | ⟨a, _ | ⟨b, rest⟩⟩ <;>
    constructor
  · simp [restore_backup, hm]
  · intro x
    simp [restore_backup, hm]
  · simp [restore_backup, hm]
  · intro x
    simp [restore_backup, hm]
  · simp [restore_backup, hm]
  · intro x
    simp [restore_backup, hm]

/-! ## Tarsnap listing: `backup_backends/tarsnap.py` -/

/-- The timestamp group of `backup_instance_regex` as the source writes
it: `\d+(.\d+)?`, with an UNESCAPED dot, so the optional part matches
any single character followed by digits. -/
def timestampGroupMatches (l : List Char) : Bool :=
  (!l.isEmpty && l.all Char.isDigit) ||
    (List.range l.length).any fun i =>
      !(l.take i).isEmpty && (l.take i).all Char.isDigit &&
        !(l.drop (i + 1)).isEmpty && (l.drop (i + 1)).all Char.isDigit

/-- The timestamp pattern the spec documents: `\d+(\.\d+)?`, the dot
being a literal dot. -/
def specTimestampMatches (l : List Char) : Bool :=
  (!l.isEmpty && l.all Char.isDigit) ||
    (List.range l.length).any fun i =>
      !(l.take i).isEmpty && (l.take i).all Char.isDigit &&
        decide ((l.drop i).head? = some '.') &&
        !(l.drop (i + 1)).isEmpty && (l.drop (i + 1)).all Char.isDigit

/-- `backup_instance_regex(identifier, name).match(line)` for
`^identifier-(timestamp)-name$`: the anchors and the two escaped literal
fields fix the window between `identifier-` and `-name`; the line matches
exactly when that window matches the timestamp pattern, and the window is
the captured timestamp group. -/
def matchInstanceLine (identifier name line : List Char) :
    Option (List Char) :=
  let mid := (line.drop (identifier.length + 1)).take
    (line.length - identifier.length - name.length - 2)
  if line = identifier ++ '-' :: (mid ++ '-' :: name) ∧
      timestampGroupMatches mid = true then
    some mid
  else none

structure TarsnapArchive where
  timestamp : PyFloat
  fullname : List Char
  backup_name : List Char
deriving DecidableEq

/-- Result of parsing a listing: the archives, or an uncaught Python
exception. -/
inductive ListingResult where
  | ok (archives : List TarsnapArchive)
  | error (msg : String)
deriving DecidableEq

/-- `TarsnapBackend.existing_archives_for_name`, parsing a listing: each
line matching the instance regex contributes an archive whose timestamp
is `float(timestamp_group)` and whose fullname is the matched line; a
failing float conversion raises `ValueError`, aborting the listing. -/
def existing_archives_for_name (identifier name : List Char)
    (lines : List (List Char)) : ListingResult :=
  match lines with
  | [] => ListingResult.ok []
  | line :: rest =>
    match matchInstanceLine identifier name line with
    | none => existing_archives_for_name identifier name rest
    | some mid =>
      match pyFloatParse (String.mk mid) with
      | none =>
        ListingResult.error "ValueError: could not convert string to float"
      | some v =>
        match existing_archives_for_name identifier name rest with
        | ListingResult.ok l => ListingResult.ok (⟨v, line, name⟩ :: l)
        | e => e

/-- `TarsnapBackend.create_backup_instance_name`; the identifier argument
stands for `hex(sha1(backend_name + backup_name))` (the hash itself is
not modelled; the repository test pins the identifier for backend "test
backend" and backup "mrgl" to the constant below), and `unixtime` is the
rendered `time.mktime` float. -/
def create_backup_instance_name (identifier backup_name unixtime : String) :
    String :=
  identifier ++ "-" ++ unixtime ++ "-" ++ backup_name

/-- `hex(sha1("test backend" ++ "mrgl"))`, pinned by the repository test
`test_perform`. -/
def mrglIdentifier : String := "712fded485ebd593f5954e38acb78ea437c15997"

/-- C6: the canonical instance name for backend "test backend", backup
"mrgl", timestamp 1416279400.0 parses back into an archive with that
timestamp and backup name — but, the regex dot being unescaped in the
source (`(.\d+)?` where the spec documents `(\.\d+)?`), a line whose
middle field is `123e5` ALSO produces an archive (timestamp
float("123e5") = 12300000.0) although the documented pattern rejects that
field, and a middle field `123x5` matches the regex and then crashes the
float conversion. -/
theorem claim_C6 :
    existing_archives_for_name mrglIdentifier.toList "mrgl".toList
        [(create_backup_instance_name mrglIdentifier "mrgl"
            "1416279400.0").toList]
      = ListingResult.ok [⟨PyFloat.finite ⟨14162794000, -1⟩,
          (create_backup_instance_name mrglIdentifier "mrgl"
            "1416279400.0").toList, "mrgl".toList⟩] ∧
      (DecFloat.mk 14162794000 (-1)).val = 1416279400 ∧
      specTimestampMatches "123e5".toList = false ∧
      timestampGroupMatches "123e5".toList = true ∧
      existing_archives_for_name mrglIdentifier.toList "mrgl".toList
          [(mrglIdentifier ++ "-123e5-mrgl").toList]
        = ListingResult.ok [⟨PyFloat.finite ⟨123, 5⟩,
            (mrglIdentifier ++ "-123e5-mrgl").toList, "mrgl".toList⟩] ∧
      (DecFloat.mk 123 5).val = 12300000 ∧
      existing_archives_for_name mrglIdentifier.toList "mrgl".toList
          [(mrglIdentifier ++ "-123x5-mrgl").toList]
        = ListingResult.error
            "ValueError: could not convert string to float" := by
  refine ⟨by decide, ?_, by decide, by decide, by decide, ?_, by decide⟩
  · norm_num [DecFloat.val]
  · norm_num [DecFloat.val]

end Backupmgr
